import Mathlib

/-!
Verification development for the rtm geospatial analytics engine.

The Python source is shallowly embedded: control flow of the repository's own
functions is translated definition-by-definition, while shapely/GEOS geometry
primitives (an external collaborator) are modelled with exact rational
arithmetic on the geometry classes the code actually builds (axis-aligned
raster pixel rectangles, polygon rings, polyomino regions), or abstracted as
function parameters where only their results flow through the code under test.
Floating point is modelled by ℚ (exact arithmetic).
-/

namespace RTM

/-- A geographic point: (longitude, latitude), exact rationals. -/
abbrev Pt := ℚ × ℚ

/-- An axis-aligned rectangle, the geometry universe for raster pixel cells and
rectangular query polygons. Degenerate or inverted bounds are allowed; area and
distance treat them the way geometric area does. -/
structure Rect where
  xmin : ℚ
  xmax : ℚ
  ymin : ℚ
  ymax : ℚ
deriving DecidableEq

/-- Strict-interior containment of a point, matching shapely `Polygon.contains`
for a rectangle: a point on the boundary is not contained. -/
def Rect.containsPt (r : Rect) (p : Pt) : Bool :=
  decide (r.xmin < p.1) && decide (p.1 < r.xmax) && decide (r.ymin < p.2) && decide (p.2 < r.ymax)

/-- Closed containment: the bounding-box test an STRtree query performs for a point. -/
def Rect.bboxContainsPt (r : Rect) (p : Pt) : Bool :=
  decide (r.xmin ≤ p.1) && decide (p.1 ≤ r.xmax) && decide (r.ymin ≤ p.2) && decide (p.2 ≤ r.ymax)

/-- Closed rectangles intersect (shapely `intersects`; touching counts). -/
def Rect.intersectsB (r q : Rect) : Bool :=
  decide (max r.xmin q.xmin ≤ min r.xmax q.xmax) && decide (max r.ymin q.ymin ≤ min r.ymax q.ymax)

/-- The intersection rectangle of two rectangles. -/
def Rect.inter (r q : Rect) : Rect :=
  ⟨max r.xmin q.xmin, min r.xmax q.xmax, max r.ymin q.ymin, min r.ymax q.ymax⟩

/-- Geometric area of a rectangle; zero when the bounds are degenerate or inverted. -/
def Rect.area (r : Rect) : ℚ :=
  max 0 (r.xmax - r.xmin) * max 0 (r.ymax - r.ymin)

/-- Squared distance from a point to a closed rectangle: the square of the shapely
geometry distance used by `STRtree.nearest`. -/
def Rect.distSq (r : Rect) (p : Pt) : ℚ :=
  (max (max (r.xmin - p.1) (p.1 - r.xmax)) 0) * (max (max (r.xmin - p.1) (p.1 - r.xmax)) 0) +
    (max (max (r.ymin - p.2) (p.2 - r.ymax)) 0) * (max (max (r.ymin - p.2) (p.2 - r.ymax)) 0)

/-- One populated raster pixel: geometry plus population value and grid position,
mirroring `PixelPolygon` in naqsha/polygons/base.py. -/
structure PixelPolygon where
  rect : Rect
  x_population : ℚ
  x_position : ℕ × ℕ
deriving DecidableEq

/-- The in-memory state built by `PopulationTif.__init__`: the raster array, the
affine geotransform components it reads from GDAL, and the scale factor. -/
structure GeoTiff where
  height : ℕ
  width : ℕ
  raster_data : List (List ℚ)
  ulx : ℚ
  xres : ℚ
  uly : ℚ
  yres : ℚ
  scale : ℚ

namespace PopulationTif

/-- raster_data[r][c]; out-of-range reads default to 0 (the loops stay in range). -/
def rasterAt (t : GeoTiff) (r c : ℕ) : ℚ := (t.raster_data.getD r []).getD c 0

/-- get_pixel_coords: the corner abscissas/ordinates of pixel (r, c), as
(x0, x1, y0, y1) with x0 = ulx + c*xres, x1 = ulx + (c+1)*xres,
y0 = uly + r*yres, y1 = uly + (r+1)*yres (population_tif.py). -/
def get_pixel_coords (t : GeoTiff) (r c : ℕ) : ℚ × ℚ × ℚ × ℚ :=
  (t.ulx + c * t.xres, t.ulx + (c + 1) * t.xres, t.uly + r * t.yres, t.uly + (r + 1) * t.yres)

/-- The rectangle spanned by the four pixel corners (x0,y0),(x0,y1),(x1,y1),(x1,y0). -/
def pixelRect (t : GeoTiff) (r c : ℕ) : Rect :=
  ⟨min (get_pixel_coords t r c).1 (get_pixel_coords t r c).2.1,
   max (get_pixel_coords t r c).1 (get_pixel_coords t r c).2.1,
   min (get_pixel_coords t r c).2.2.1 (get_pixel_coords t r c).2.2.2,
   max (get_pixel_coords t r c).2.2.1 (get_pixel_coords t r c).2.2.2⟩

/-- cache_pixels: row-major scan; negative raster values are clamped to zero, pixels
whose clamped value is zero are skipped, surviving pixels carry `scale * value`. -/
def cache_pixels (t : GeoTiff) : List PixelPolygon :=
  (List.range t.height).flatMap (fun r =>
    (List.range t.width).filterMap (fun c =>
      let v := max (rasterAt t r c) 0
      if v = 0 then none
      else some ⟨pixelRect t r c, t.scale * v, (r, c)⟩))

/-- STRtree.query for a rectangle: all cached pixels whose bounding box intersects it
(for rectangles the bounding box is the rectangle itself). -/
def strTreeQuery (pixels : List PixelPolygon) (q : Rect) : List PixelPolygon :=
  pixels.filter (fun px => px.rect.intersectsB q)

/-- get_intersecting_pixels: the STRtree candidates, re-checked with `intersects`. -/
def get_intersecting_pixels (pixels : List PixelPolygon) (q : Rect) : List PixelPolygon :=
  (strTreeQuery pixels q).filter (fun px => px.rect.intersectsB q)

/-- get_population: with a polygon, sums population * (intersection area / pixel area)
over the intersecting pixels; without one, the percentage is 1.0 over all pixels. -/
def get_population (pixels : List PixelPolygon) (poly : Option Rect) : ℚ :=
  let inter := match poly with
    | some q => get_intersecting_pixels pixels q
    | none => pixels
  (inter.map (fun px =>
    px.x_population * (match poly with
      | some q => (px.rect.inter q).area / px.rect.area
      | none => 1))).sum

/-- STRtree.nearest: a cached geometry at minimal geometric distance (the first such
in list order; shapely does not specify tie-breaking). none models the empty tree. -/
def strTreeNearest (pixels : List PixelPolygon) (p : Pt) : Option PixelPolygon :=
  pixels.foldl (fun acc px =>
    match acc with
    | none => some px
    | some b => if px.rect.distSq p < b.rect.distSq p then some px else some b) none

/-- get_point_population: the population of the pixel containing the point, else the
population of the nearest pixel; none models the crash on an empty grid (nearest
returns no geometry and the attribute access fails). -/
def get_point_population (pixels : List PixelPolygon) (p : Pt) : Option ℚ :=
  match (pixels.filter (fun px => px.rect.bboxContainsPt p)).find?
      (fun px => px.rect.containsPt p) with
  | some px => some px.x_population
  | none => (strTreeNearest pixels p).map (fun px => px.x_population)

/-- lrx as computed in `__init__`: ulx + width * xres. -/
def lrx (t : GeoTiff) : ℚ := t.ulx + t.width * t.xres

/-- lry as computed in `__init__`: uly + height * yres. -/
def lry (t : GeoTiff) : ℚ := t.uly + t.height * t.yres

/-- The whole-raster extent rectangle (for a north-up raster: xres > 0 > yres). -/
def extentRect (t : GeoTiff) : Rect := ⟨t.ulx, lrx t, lry t, t.uly⟩

end PopulationTif

namespace OptimizedPopulationTif

/-- The pixel-index state of an `OptimizedPopulationTif`: `_pixel_polygons` starts as
an empty list and `_str_tree` as None; `_process_extracted_data` sets both to the
same extracted pixel list. -/
structure OptState where
  pixel_polygons : List PixelPolygon
  str_tree : Option (List PixelPolygon)

/-- The state after `_process_extracted_data` cached the pixel list l. -/
def processed (l : List PixelPolygon) : OptState := ⟨l, some l⟩

/-- get_intersecting_pixels of the optimized class: empty when the tree is absent,
otherwise the STRtree candidates re-checked with `intersects`. -/
def get_intersecting_pixels (s : OptState) (q : Rect) : List PixelPolygon :=
  match s.str_tree with
  | none => []
  | some tree =>
      (tree.filter (fun px => px.rect.intersectsB q)).filter (fun px => px.rect.intersectsB q)

/-- get_population of the optimized class: textually the same apportioned sum as the
full class, over this instance's pixels. -/
def get_population (s : OptState) (poly : Option Rect) : ℚ :=
  let inter := match poly with
    | some q => get_intersecting_pixels s q
    | none => s.pixel_polygons
  (inter.map (fun px =>
    px.x_population * (match poly with
      | some q => (px.rect.inter q).area / px.rect.area
      | none => 1))).sum

/-- get_point_population of the optimized class: the containing pixel's population;
0.0 both when the tree is absent and when no pixel contains the point (no
nearest-pixel fallback). -/
def get_point_population (s : OptState) (p : Pt) : ℚ :=
  match s.str_tree with
  | none => 0
  | some tree =>
      match (tree.filter (fun px => px.rect.bboxContainsPt p)).find?
          (fun px => px.rect.containsPt p) with
      | some px => px.x_population
      | none => 0

end OptimizedPopulationTif

namespace SEC

/-- A reference SEC polygon as the classification code sees it: only its source
folder (the classification label) flows through `get_polygon_sec_by_*`. -/
structure SecRef where
  x_folder : String
deriving DecidableEq

/-- A sec dictionary: insertion-ordered keys with rational weights
(Python dict of label to float). -/
abbrev SecDict := List (String × ℚ)

/-- default_sec_dict: every observed label, zero-initialized (the construction sorts
and dedups the labels; here they are a parameter `keys`). -/
def default_sec_dict (keys : List String) : SecDict := keys.map (fun k => (k, 0))

/-- dict[k] += v on the first occurrence of k. A missing key raises KeyError in
Python; the theorems assume the key is present, so that branch is unreachable. -/
def addToKey : SecDict → String → ℚ → SecDict
  | [], _, _ => []
  | kv :: rest, k, v => if kv.1 = k then (kv.1, kv.2 + v) :: rest else kv :: addToKey rest k v

/-- The value list of a sec dictionary. -/
def secValues (d : SecDict) : List ℚ := d.map (fun kv => kv.2)

/-- normalize_sec_dict: divide every value by the sum of the values and re-zip with
the keys (sec.py). -/
def normalize_sec_dict (d : SecDict) : SecDict :=
  (d.map (fun kv => kv.1)).zip ((secValues d).map (fun x => x / (secValues d).sum))

/-- get_polygon_sec_by_population_nearby: a fresh zero dictionary with 1.0 added to
the folder of the reference polygon nearest to the query (sec.py). -/
def get_polygon_sec_by_population_nearby (keys : List String) (nearestFolder : String) :
    SecDict :=
  addToKey (default_sec_dict keys) nearestFolder 1

/-- get_polygon_sec_by_area_nearby: identical to the population variant (sec.py). -/
def get_polygon_sec_by_area_nearby (keys : List String) (nearestFolder : String) : SecDict :=
  addToKey (default_sec_dict keys) nearestFolder 1

/-- get_polygon_sec_by_population: add the raster population of each positive-area
overlap to that reference polygon's folder bucket; if the dictionary is unchanged
fall back to the nearest reference polygon; finally normalize. The STRtree query
result `refs`, the overlap geometry results and the nearest folder are collaborator
inputs. -/
def get_polygon_sec_by_population (keys : List String) (refs : List SecRef)
    (overlapArea overlapPop : SecRef → ℚ) (nearestFolder : String) : SecDict :=
  let base := default_sec_dict keys
  let d := refs.foldl
    (fun d r => if overlapArea r > 0 then addToKey d r.x_folder (overlapPop r) else d) base
  let d := if d = base then get_polygon_sec_by_population_nearby keys nearestFolder else d
  normalize_sec_dict d

/-- get_polygon_sec_by_area: for each reference polygon that intersects the query,
add overlapArea / queryArea to its folder bucket when positive; same fallback and
normalization as the population variant. -/
def get_polygon_sec_by_area (keys : List String) (refs : List SecRef)
    (intersectsQ : SecRef → Bool) (overlapArea : SecRef → ℚ) (queryArea : ℚ)
    (nearestFolder : String) : SecDict :=
  let base := default_sec_dict keys
  let d := refs.foldl
    (fun d r =>
      if intersectsQ r then
        if overlapArea r / queryArea > 0 then addToKey d r.x_folder (overlapArea r / queryArea)
        else d
      else d) base
  let d := if d = base then get_polygon_sec_by_area_nearby keys nearestFolder else d
  normalize_sec_dict d

end SEC

namespace Tessellation

/-- A region made of unit grid squares (a polyomino), the concrete geometry used to
exercise the stitching pass; a cell (i, j) is the closed unit square
[i, i+1] x [j, j+1]. Geometric union of regions is list append. -/
abbrev GridGeom := List (ℤ × ℤ)

/-- Two closed unit squares share a (2-dimensional) region exactly when they are the
same cell. -/
def cellsShare (a b : GridGeom) : Bool := a.any (fun x => b.contains x)

/-- Two distinct closed unit squares share an edge segment iff the cells are
4-adjacent. -/
def edgeAdj (x y : ℤ × ℤ) : Bool :=
  (x.1 = y.1 && (x.2 - y.2 = 1 || y.2 - x.2 = 1)) ||
    (x.2 = y.2 && (x.1 - y.1 = 1 || y.1 - x.1 = 1))

/-- The possible shapely geometry types of an intersection of two polyomino regions,
as far as the stitching pass inspects them. -/
inductive IKind where
  | emptyK
  | pointK
  | lineK
  | polyK
deriving DecidableEq

/-- The geometry type of the intersection of two polyomino regions: a shared cell
gives a polygonal overlap; otherwise a 4-adjacent pair of cells gives an edge
contact, which for the configurations exercised here (a single connected contact
segment, possibly absorbing corner touches at its endpoints) is a LineString;
otherwise at most corner points. -/
def interKind (a b : GridGeom) : IKind :=
  if cellsShare a b then .polyK
  else if a.any (fun x => b.any (fun y => edgeAdj x y)) then .lineK
  else if a.any (fun x => b.any (fun y =>
      (x.1 - y.1 = 1 || y.1 - x.1 = 1) && (x.2 - y.2 = 1 || y.2 - x.2 = 1))) then .pointK
  else .emptyK

/-- Geometric union of two polyomino regions. -/
def gunion (a b : GridGeom) : GridGeom := a ++ b

/-- One inner for-loop of the stitching pass: scan the list in index order, union the
popped fragment into the first element whose intersection with it is a LineString,
replace that element in place and stop (the `break`). -/
def mergeFirst (l : List GridGeom) (t : GridGeom) : List GridGeom :=
  match l with
  | [] => []
  | g :: gs => if interKind g t = .lineK then gunion g t :: gs else g :: mergeFirst gs t

/-- The 2nd-pass while-loop of post_adjustments, with fuel: pop the last orphan, run
the for-loop over final_polygons, then run the for-loop over the remaining orphans
(both loops always run, as in the source), and repeat. Each iteration removes
exactly one element, so fuel = initial queue length runs the loop to completion. -/
def stitchLoopAux : ℕ → List GridGeom → List GridGeom → List GridGeom × List GridGeom
  | 0, final, adjust => (final, adjust)
  | fuel + 1, final, adjust =>
      if h : adjust = [] then (final, adjust)
      else
        stitchLoopAux fuel (mergeFirst final (adjust.getLast h))
          (mergeFirst adjust.dropLast (adjust.getLast h))

/-- The stitching pass (lines 188-204 of tessellation.py) on an initial pair of
final polygons and orphan queue. -/
def stitchLoop (final adjust : List GridGeom) : List GridGeom × List GridGeom :=
  stitchLoopAux adjust.length final adjust

/-- A geometry in the final_polygons list as the tail of post_adjustments sees it: a
simple polygon (which has an exterior ring) or a multi-part polygon (which has
none: accessing `.exterior` on a MultiPolygon raises AttributeError). -/
inductive TGeom where
  | poly (exterior : List Pt)
  | multiPoly (parts : List (List Pt))
deriving DecidableEq

/-- Whether a geometry is a MultiPolygon (the residual-cell check of
post_adjustments). -/
def isMultiPolygon : TGeom → Bool
  | .poly _ => false
  | .multiPoly _ => true

/-- to_kml, reduced to its data: the exterior coordinate rings it serializes, in
order. The ring extraction loop runs before the output file is opened, so the
first MultiPolygon in the list raises AttributeError and nothing at all is
written. -/
def to_kml : List TGeom → Except String (List (List Pt))
  | [] => Except.ok []
  | .poly e :: rest => do
      let others ← to_kml rest
      pure (e :: others)
  | .multiPoly _ :: _ =>
      Except.error "AttributeError: MultiPolygon object has no attribute exterior"

/-- The tail of post_adjustments after the stitching pass: the residual-multipolygon
diagnostic (the printed question) and the attempted KML write. -/
def post_adjustments_finalize (final_polygons : List TGeom) :
    Bool × Except String (List (List Pt)) :=
  (!(final_polygons.filter (fun tp => isMultiPolygon tp)).isEmpty, to_kml final_polygons)

end Tessellation

namespace MasterPolygon

/-- The geometry kind of a placemark parsed by KMLReader (Point, LineString or
Polygon). -/
inductive GKind where
  | pointG
  | lineG
  | polygonG
deriving DecidableEq

/-- One parsed placemark record: name, geometry kind, folder chain (root to leaf)
and coordinate list, mirroring the Placemark namedtuple of kml_reader.py. -/
structure Placemark where
  name : String
  type : GKind
  folders : List String
  coordinates : List Pt
deriving DecidableEq

/-- An attribute-bearing polygon as built by MasterPolygon.from_kml (SAPolygon in
polygons/base.py); validity and emptiness are the shapely results for the
constructed geometry. -/
structure SAPolygon where
  x_class : String
  x_id : ℕ
  x_coordinates : List Pt
  x_name : String
  x_folder : String
  is_valid : Bool
  is_empty : Bool
deriving DecidableEq

/-- Shapely polygon construction from a coordinate list: fewer than 3 coordinate
tuples raises ValueError; the validity/emptiness of a successfully constructed
geometry are the collaborator's results, passed in as parameters. -/
def shapelyPolygon (isValid isEmpty : List Pt → Bool) (coords : List Pt) :
    Except String (Bool × Bool) :=
  if coords.length < 3 then
    Except.error "ValueError: a LinearRing must have at least 3 coordinate tuples"
  else Except.ok (isValid coords, isEmpty coords)

/-- placemark.folders[-1]: IndexError on an empty folder chain. -/
def lastFolder (folders : List String) : Except String String :=
  match folders.getLast? with
  | some f => Except.ok f
  | none => Except.error "IndexError: list index out of range"

/-- The enumerated loop of from_kml: every placemark record, of any geometry kind,
is turned into an SAPolygon (there is no filter on placemark.type); an exception
thrown by the shapely constructor propagates out of the whole construction; a
successfully built polygon is kept exactly when it is valid and not empty. -/
def from_kml_aux (isValid isEmpty : List Pt → Bool) (nm : String) :
    ℕ → List Placemark → Except String (List SAPolygon)
  | _, [] => Except.ok []
  | indx, pm :: rest => do
      let vp ← shapelyPolygon isValid isEmpty pm.coordinates
      let fld ← lastFolder pm.folders
      let sa : SAPolygon := ⟨nm, indx, pm.coordinates, pm.name, fld, vp.1, vp.2⟩
      let others ← from_kml_aux isValid isEmpty nm (indx + 1) rest
      if sa.is_valid && !sa.is_empty then pure (sa :: others) else pure others

/-- MasterPolygon.from_kml over the reader's record list. -/
def from_kml (isValid isEmpty : List Pt → Bool) (nm : String) (data : List Placemark) :
    Except String (List SAPolygon) :=
  from_kml_aux isValid isEmpty nm 0 data

/-- A shapely-collaborator instantiation for concrete runs: every successfully
constructed geometry reports valid. -/
def allValid : List Pt → Bool := fun _ => true

/-- A shapely-collaborator instantiation for concrete runs: every successfully
constructed geometry reports non-empty. -/
def noneEmpty : List Pt → Bool := fun _ => false

end MasterPolygon

namespace Boundary

/-- A boundary member polygon: its exterior ring coordinate list. -/
structure BPoly where
  ring : List Pt
deriving DecidableEq

/-- The z-component of the cross product (b - a) x (p - a). -/
def crossZ (a b p : Pt) : ℚ :=
  (b.1 - a.1) * (p.2 - a.2) - (b.2 - a.2) * (p.1 - a.1)

/-- The closed edge cycle of a ring: consecutive vertex pairs, last joined to
first. -/
def ringEdges (ring : List Pt) : List (Pt × Pt) := ring.zip (ring.rotate 1)

/-- Shallow model of shapely `Polygon.contains` on a counterclockwise convex ring:
the point is strictly inside every edge half-plane. `contains` is a
strict-interior test (DE-9IM): a point on the polygon boundary is not contained. -/
def containsPoint (P : BPoly) (p : Pt) : Bool :=
  (ringEdges P.ring).all (fun e => decide (0 < crossZ e.1 e.2 p))

/-- The point lies on the closed edge e: collinear with it and between its
endpoints. -/
def onEdge (e : Pt × Pt) (p : Pt) : Bool :=
  decide (crossZ e.1 e.2 p = 0) && decide (min e.1.1 e.2.1 ≤ p.1) &&
    decide (p.1 ≤ max e.1.1 e.2.1) && decide (min e.1.2 e.2.2 ≤ p.2) &&
    decide (p.2 ≤ max e.1.2 e.2.2)

/-- The point lies on the exterior ring of P. -/
def onRing (P : BPoly) (p : Pt) : Bool := (ringEdges P.ring).any (fun e => onEdge e p)

/-- The bounding box of a ring (degenerate at the origin for an empty ring, which
does not arise). -/
def ringBBox (ring : List Pt) : Rect :=
  match ring with
  | [] => ⟨0, 0, 0, 0⟩
  | q :: rest =>
      rest.foldl
        (fun acc pt => ⟨min acc.xmin pt.1, max acc.xmax pt.1, min acc.ymin pt.2, max acc.ymax pt.2⟩)
        ⟨q.1, q.1, q.2, q.2⟩

/-- Boundary.is_in_boundary: query the STRtree for candidates (bounding-box test),
then return whether some candidate polygon contains the point. -/
def is_in_boundary (polys : List BPoly) (p : Pt) : Bool :=
  (polys.filter (fun P => (ringBBox P.ring).bboxContainsPt p)).any
    (fun cp => containsPoint cp p)

end Boundary

namespace Customers

/-- One customer CSV row as used by cache_populate_customers: coordinates (none
models a null/NaN cell) and the customer code. -/
structure CustRow where
  longitude : Option ℚ
  latitude : Option ℚ
  customer_code : String
deriving DecidableEq

/-- A customer point (utils.py CustomerPoint) after the caching loop: location flag
plus the resolution fields with their constructor defaults x_sec = "U",
x_mta_id = None, x_whitespace_id = None. The source stores the containing polygon
object in the id fields; it is represented here by the polygon's id. -/
structure CustomerPoint where
  x_cust_code : String
  x_coordinates : Option ℚ × Option ℚ
  x_loc_flag : String
  x_sec : String
  x_mta_id : Option ℕ
  x_whitespace_id : Option ℕ
deriving DecidableEq

/-- get_location_flag (customers.py): M if either coordinate is null, else Z if
either coordinate is exactly zero, else OB if the point is not in the boundary,
else OK. The boundary containment test is the collaborator parameter. -/
def get_location_flag (isInBoundary : ℚ → ℚ → Bool) (lng lat : Option ℚ) : String :=
  match lng, lat with
  | none, _ => "M"
  | _, none => "M"
  | some lg, some lt =>
      if lg = 0 || lt = 0 then "Z"
      else if !isInBoundary lg lt then "OB"
      else "OK"

/-- The body of the cache_populate_customers loop for one row: build the point with
its defaults, attach the location flag, and resolve SEC and the sub-territory
collections only when the flag is OK. -/
def processCustomerRow (isInBoundary : ℚ → ℚ → Bool) (secOf : Pt → String)
    (mtaOf wsOf : Pt → Option ℕ) (row : CustRow) : CustomerPoint :=
  let flag := get_location_flag isInBoundary row.longitude row.latitude
  let base : CustomerPoint :=
    ⟨row.customer_code, (row.longitude, row.latitude), flag, "U", none, none⟩
  if flag = "OK" then
    match row.longitude, row.latitude with
    | some lg, some lt =>
        { base with
            x_sec := secOf (lg, lt), x_mta_id := mtaOf (lg, lt),
            x_whitespace_id := wsOf (lg, lt) }
    | _, _ => base
  else base

/-- cache_populate_customers: the caching loop over all rows. -/
def cache_populate_customers (isInBoundary : ℚ → ℚ → Bool) (secOf : Pt → String)
    (mtaOf wsOf : Pt → Option ℕ) (rows : List CustRow) : List CustomerPoint :=
  rows.map (processCustomerRow isInBoundary secOf mtaOf wsOf)

end Customers

/-- Modelled from the spec: the claim for `pointPopulation` reads "the nearest cell
by centroid distance"; this is the squared distance from the pixel rectangle's
centroid to the point, against which the implementation is compared. -/
def specCentroidDistSq (r : Rect) (p : Pt) : ℚ :=
  ((r.xmin + r.xmax) / 2 - p.1) * ((r.xmin + r.xmax) / 2 - p.1) +
    ((r.ymin + r.ymax) / 2 - p.2) * ((r.ymin + r.ymax) / 2 - p.2)

/-- A concrete 3x4 raster (geotransform ulx 0, xres 10, uly 30, yres -10, scale 1)
with two populated pixels: value 7 at (row 0, col 2) and value 5 at (row 2, col 3). -/
def tif6 : GeoTiff :=
  ⟨3, 4, [[0, 0, 7, 0], [0, 0, 0, 0], [0, 0, 0, 5]], 0, 10, 30, -10, 1⟩

/-- A concrete query point below the raster extent of `tif6`, contained in no pixel:
the pixel of value 7 is nearer by geometry distance, the pixel of value 5 is nearer
by centroid distance. -/
def pt6 : Pt := (0, -1)

/-- The populated pixel of `tif6` at grid position (2, 3): population 5. -/
def pxA : PixelPolygon := ⟨⟨30, 40, 0, 10⟩, 5, (2, 3)⟩

/-! General list lemmas used by several proofs below. -/

theorem sum_map_filter_le {α : Type} (l : List α) (p : α → Bool) (f : α → ℚ)
    (h : ∀ x ∈ l, 0 ≤ f x) : ((l.filter p).map f).sum ≤ (l.map f).sum := by
  induction l with
  | nil => simp
  | cons a l ih =>
      have hl := ih (fun x hx => h x (List.mem_cons_of_mem a hx))
      have ha := h a (List.mem_cons_self a l)
      by_cases hp : p a
      · simpa [List.filter_cons, hp] using add_le_add_left hl (f a)
      · simp only [List.filter_cons, hp, Bool.false_eq_true, if_false, List.map_cons, List.sum_cons]
        linarith

/-! Tessellation: lemmas and claim theorems for the stitching pass and the
residual multi-part check. -/

theorem to_kml_error_of_multi (geoms : List Tessellation.TGeom)
    (h : geoms.any Tessellation.isMultiPolygon = true) :
    Tessellation.to_kml geoms =
      Except.error "AttributeError: MultiPolygon object has no attribute exterior" := by
  induction geoms with
  | nil => simp at h
  | cons g l ih =>
      cases g with
      | poly e =>
          have hl : l.any Tessellation.isMultiPolygon = true := by
            simpa [Tessellation.isMultiPolygon] using h
          simp only [Tessellation.to_kml]
          rw [ih hl]
          rfl
      | multiPoly parts => rfl

/-- C1: after the stitching pass, a residual multi-part cell in final_polygons
raises the data-quality diagnostic, and the KML write fails hard (the exterior
ring extraction raises before the output file is opened), so the engine never
writes out a partition containing a residual multi-part cell. -/
theorem C1_multipart_cell_hard_failure (final : List Tessellation.TGeom)
    (h : final.any Tessellation.isMultiPolygon = true) :
    (Tessellation.post_adjustments_finalize final).1 = true ∧
    (Tessellation.post_adjustments_finalize final).2 =
      Except.error "AttributeError: MultiPolygon object has no attribute exterior" := by
  constructor
  · obtain ⟨x, hx, hmx⟩ := List.any_eq_true.mp h
    have hmem : x ∈ final.filter (fun tp => Tessellation.isMultiPolygon tp) :=
      List.mem_filter.mpr ⟨hx, hmx⟩
    have hne : final.filter (fun tp => Tessellation.isMultiPolygon tp) ≠ [] := by
      intro hcon
      rw [hcon] at hmem
      exact List.not_mem_nil x hmem
    simp [Tessellation.post_adjustments_finalize, List.isEmpty_iff, hne]
  · exact to_kml_error_of_multi final h

theorem C1_witness :
    (Tessellation.post_adjustments_finalize
        [Tessellation.TGeom.poly [(0, 0), (1, 0), (0, 1)],
         Tessellation.TGeom.multiPoly [[(2, 2), (3, 2), (2, 3)], [(5, 5), (6, 5), (5, 6)]]]).1
      = true ∧
    (Tessellation.post_adjustments_finalize
        [Tessellation.TGeom.poly [(0, 0), (1, 0), (0, 1)],
         Tessellation.TGeom.multiPoly [[(2, 2), (3, 2), (2, 3)], [(5, 5), (6, 5), (5, 6)]]]).2
      = Except.error "AttributeError: MultiPolygon object has no attribute exterior" :=
  C1_multipart_cell_hard_failure
    [Tessellation.TGeom.poly [(0, 0), (1, 0), (0, 1)],
     Tessellation.TGeom.multiPoly [[(2, 2), (3, 2), (2, 3)], [(5, 5), (6, 5), (5, 6)]]]
    (by decide)

/-- C2: the claim fails on the code. Run the stitching pass on one concrete
configuration: accepted cells F1 = square (0,0) and F2 = square (0,2), orphan
queue [H, T] with H = square (1,1) and T = square (0,1). The popped fragment T
shares a line-segment boundary with accepted cell F1 AND with orphan H, and the
source runs both inner loops, so T is unioned into both; H (now carrying T) is
later unioned into F2. The orphan cell (0,1) therefore ends up inside two
distinct output cells: a fragment is merged into two different geometries and
the output double-assigns that region, contradicting the claim. -/
theorem C2_stitching_double_union_eval :
    Tessellation.stitchLoop [[((0 : ℤ), (0 : ℤ))], [((0 : ℤ), (2 : ℤ))]]
        [[((1 : ℤ), (1 : ℤ))], [((0 : ℤ), (1 : ℤ))]] =
      ([[((0 : ℤ), (0 : ℤ)), ((0 : ℤ), (1 : ℤ))],
        [((0 : ℤ), (2 : ℤ)), ((1 : ℤ), (1 : ℤ)), ((0 : ℤ), (1 : ℤ))]], []) ∧
    ((Tessellation.stitchLoop [[((0 : ℤ), (0 : ℤ))], [((0 : ℤ), (2 : ℤ))]]
        [[((1 : ℤ), (1 : ℤ))], [((0 : ℤ), (1 : ℤ))]]).1.filter
      (fun g => decide (((0 : ℤ), (1 : ℤ)) ∈ g))).length = 2 := by
  decide

/-- C3: the claim fails on the code. from_kml builds a shapely polygon out of
every placemark record with no filter on the geometry kind, so (first conjunct)
a point-kind record, whose coordinate list has a single entry, makes the shapely
constructor raise and the whole construction fails instead of dropping the record
with a diagnostic; and (second conjunct) a line-kind record whose coordinates
happen to form a valid ring is kept in the collection, which therefore does not
hold polygon-kind records only. -/
theorem C3_from_kml_eval :
    (MasterPolygon.from_kml MasterPolygon.allValid MasterPolygon.noneEmpty "boundary"
        [⟨"area", MasterPolygon.GKind.polygonG, ["Doc"], [(0, 0), (1, 0), (0, 1)]⟩,
         ⟨"site", MasterPolygon.GKind.pointG, ["Doc"], [(3, 4)]⟩] =
      Except.error "ValueError: a LinearRing must have at least 3 coordinate tuples") ∧
    (MasterPolygon.from_kml MasterPolygon.allValid MasterPolygon.noneEmpty "boundary"
        [⟨"path1", MasterPolygon.GKind.lineG, ["Doc", "roads"], [(0, 0), (1, 0), (1, 1), (0, 1)]⟩] =
      Except.ok [⟨"boundary", 0, [(0, 0), (1, 0), (1, 1), (0, 1)], "path1", "roads", true, false⟩]) :=
  ⟨rfl, rfl⟩

/-! SEC classification: dictionary lemmas and the weight-sum theorem. -/

theorem sum_map_div (l : List ℚ) (s : ℚ) : (l.map (fun x => x / s)).sum = l.sum / s := by
  induction l with
  | nil => simp
  | cons a l ih => simp [ih, add_div]

theorem secValues_cons (kv : String × ℚ) (rest : SEC.SecDict) :
    SEC.secValues (kv :: rest) = kv.2 :: SEC.secValues rest := rfl

theorem default_sec_dict_keys (keys : List String) :
    (SEC.default_sec_dict keys).map Prod.fst = keys := by
  induction keys with
  | nil => rfl
  | cons k ks ih => simp only [SEC.default_sec_dict, List.map_cons] at ih ⊢; rw [ih]

theorem default_sec_dict_values (keys : List String) :
    SEC.secValues (SEC.default_sec_dict keys) = keys.map (fun _ => (0 : ℚ)) := by
  induction keys with
  | nil => rfl
  | cons k ks ih =>
      simp only [SEC.default_sec_dict, List.map_cons] at ih ⊢
      rw [secValues_cons] at *
      rw [ih]

theorem default_sec_dict_sum (keys : List String) :
    (SEC.secValues (SEC.default_sec_dict keys)).sum = 0 := by
  rw [default_sec_dict_values]
  apply List.sum_eq_zero
  intro x hx
  obtain ⟨a, -, hax⟩ := List.mem_map.mp hx
  exact hax.symm

theorem default_sec_dict_nonneg (keys : List String) :
    ∀ x ∈ SEC.secValues (SEC.default_sec_dict keys), 0 ≤ x := by
  intro x hx
  rw [default_sec_dict_values] at hx
  obtain ⟨a, -, hax⟩ := List.mem_map.mp hx
  rw [← hax]

theorem addToKey_keys (d : SEC.SecDict) (k : String) (v : ℚ) :
    (SEC.addToKey d k v).map Prod.fst = d.map Prod.fst := by
  induction d with
  | nil => rfl
  | cons kv rest ih =>
      by_cases h : kv.1 = k
      · simp [SEC.addToKey, h]
      · simp [SEC.addToKey, h, ih]

theorem addToKey_values_nonneg (d : SEC.SecDict) (k : String) (v : ℚ)
    (hd : ∀ x ∈ SEC.secValues d, 0 ≤ x) (hv : 0 ≤ v) :
    ∀ x ∈ SEC.secValues (SEC.addToKey d k v), 0 ≤ x := by
  induction d with
  | nil => simp [SEC.addToKey, SEC.secValues]
  | cons kv rest ih =>
      have hhead : 0 ≤ kv.2 := hd kv.2 (by rw [secValues_cons]; exact List.mem_cons_self _ _)
      have htail : ∀ x ∈ SEC.secValues rest, 0 ≤ x := fun x hx =>
        hd x (by rw [secValues_cons]; exact List.mem_cons_of_mem _ hx)
      intro x hx
      by_cases h : kv.1 = k
      · rw [SEC.addToKey, if_pos h, secValues_cons] at hx
        rcases List.mem_cons.mp hx with hx | hx
        · rw [hx]; exact add_nonneg hhead hv
        · exact htail x hx
      · rw [SEC.addToKey, if_neg h, secValues_cons] at hx
        rcases List.mem_cons.mp hx with hx | hx
        · rw [hx]; exact hhead
        · exact ih htail x hx

theorem addToKey_sum (d : SEC.SecDict) (k : String) (v : ℚ) (hk : k ∈ d.map Prod.fst) :
    (SEC.secValues (SEC.addToKey d k v)).sum = (SEC.secValues d).sum + v := by
  induction d with
  | nil => simp at hk
  | cons kv rest ih =>
      by_cases h : kv.1 = k
      · rw [SEC.addToKey, if_pos h, secValues_cons, secValues_cons, List.sum_cons, List.sum_cons]
        ring
      · have hk' : k ∈ rest.map Prod.fst := by
          rw [List.map_cons] at hk
          rcases List.mem_cons.mp hk with hx | hx
          · exact absurd hx.symm h
          · exact hx
        rw [SEC.addToKey, if_neg h, secValues_cons, secValues_cons, List.sum_cons, List.sum_cons,
          ih hk']
        ring

theorem foldl_preserve {α β : Type} (step : β → α → β) (P : β → Prop) (l : List α) (d : β)
    (hd : P d) (hstep : ∀ d a, a ∈ l → P d → P (step d a)) : P (l.foldl step d) := by
  induction l generalizing d with
  | nil => exact hd
  | cons a l ih =>
      exact ih (step d a) (hstep d a (List.mem_cons_self a l) hd)
        (fun d' b hb hd' => hstep d' b (List.mem_cons_of_mem a hb) hd')

theorem foldl_id_of_fix {α β : Type} (step : β → α → β) (l : List α) (d : β)
    (h : ∀ d' a, a ∈ l → step d' a = d') : l.foldl step d = d := by
  induction l generalizing d with
  | nil => rfl
  | cons a l ih =>
      rw [List.foldl_cons, h d a (List.mem_cons_self a l)]
      exact ih d (fun d' b hb => h d' b (List.mem_cons_of_mem a hb))

theorem sum_pos_of_ne_default :
    ∀ (d : SEC.SecDict) (keys : List String), d.map Prod.fst = keys →
      (∀ x ∈ SEC.secValues d, 0 ≤ x) → d ≠ SEC.default_sec_dict keys →
      0 < (SEC.secValues d).sum := by
  intro d
  induction d with
  | nil =>
      intro keys hk _ hne
      exact absurd (by rw [← hk]; rfl) hne
  | cons kv rest ih =>
      intro keys hk hnn hne
      have hkeys : keys = kv.1 :: rest.map Prod.fst := by rw [← hk]; rfl
      subst hkeys
      have hhead : 0 ≤ kv.2 := hnn kv.2 (by rw [secValues_cons]; exact List.mem_cons_self _ _)
      have htail : ∀ x ∈ SEC.secValues rest, 0 ≤ x := fun x hx =>
        hnn x (by rw [secValues_cons]; exact List.mem_cons_of_mem _ hx)
      rw [secValues_cons, List.sum_cons]
      by_cases hv : kv.2 = 0
      · have hrest : rest ≠ SEC.default_sec_dict (rest.map Prod.fst) := by
          intro hc
          apply hne
          show kv :: rest = SEC.default_sec_dict (kv.1 :: rest.map Prod.fst)
          have hdef : SEC.default_sec_dict (kv.1 :: rest.map Prod.fst) =
              (kv.1, (0 : ℚ)) :: SEC.default_sec_dict (rest.map Prod.fst) := rfl
          rw [hdef, ← hc]
          exact congrArg (fun z => z :: rest) (Prod.ext rfl hv)
        have hrpos := ih (rest.map Prod.fst) rfl htail hrest
        linarith
      · have hpos : 0 < kv.2 := lt_of_le_of_ne hhead (Ne.symm hv)
        have hrest0 : 0 ≤ (SEC.secValues rest).sum := List.sum_nonneg htail
        linarith

theorem normalize_keys (d : SEC.SecDict) :
    (SEC.normalize_sec_dict d).map Prod.fst = d.map Prod.fst := by
  rw [SEC.normalize_sec_dict]
  exact List.map_fst_zip _ _ (by simp [SEC.secValues])

theorem normalize_values (d : SEC.SecDict) :
    SEC.secValues (SEC.normalize_sec_dict d) =
      (SEC.secValues d).map (fun x => x / (SEC.secValues d).sum) := by
  rw [SEC.normalize_sec_dict]
  exact List.map_snd_zip _ _ (by simp [SEC.secValues])

theorem normalize_sum (d : SEC.SecDict) (h : (SEC.secValues d).sum ≠ 0) :
    (SEC.secValues (SEC.normalize_sec_dict d)).sum = 1 := by
  rw [normalize_values, sum_map_div, div_self h]

theorem normalize_noop (d : SEC.SecDict) (h : (SEC.secValues d).sum = 1) :
    SEC.normalize_sec_dict d = d := by
  rw [SEC.normalize_sec_dict, h]
  simp only [div_one]
  have hid : (SEC.secValues d).map (fun x => x) = SEC.secValues d := List.map_id' _
  rw [hid]
  have hz := List.zip_unzip d
  rw [List.unzip_eq_map] at hz
  exact hz

theorem fallback_sum (keys : List String) (nf : String) (h : nf ∈ keys) :
    (SEC.secValues (SEC.addToKey (SEC.default_sec_dict keys) nf 1)).sum = 1 := by
  rw [addToKey_sum _ _ _ (by rw [default_sec_dict_keys]; exact h), default_sec_dict_sum]
  ring

theorem popFold_spec (keys : List String) (refs : List SEC.SecRef)
    (overlapArea overlapPop : SEC.SecRef → ℚ) (hpop : ∀ r ∈ refs, 0 ≤ overlapPop r) :
    (refs.foldl
        (fun d r => if overlapArea r > 0 then SEC.addToKey d r.x_folder (overlapPop r) else d)
        (SEC.default_sec_dict keys)).map Prod.fst = keys ∧
    ∀ x ∈ SEC.secValues (refs.foldl
        (fun d r => if overlapArea r > 0 then SEC.addToKey d r.x_folder (overlapPop r) else d)
        (SEC.default_sec_dict keys)), 0 ≤ x := by
  apply foldl_preserve
    (fun d r => if overlapArea r > 0 then SEC.addToKey d r.x_folder (overlapPop r) else d)
    (fun d => d.map Prod.fst = keys ∧ ∀ x ∈ SEC.secValues d, 0 ≤ x) refs
    (SEC.default_sec_dict keys)
    ⟨default_sec_dict_keys keys, default_sec_dict_nonneg keys⟩
  intro d r hr hd
  by_cases hc : overlapArea r > 0
  · rw [if_pos hc]
    exact ⟨by rw [addToKey_keys]; exact hd.1, addToKey_values_nonneg _ _ _ hd.2 (hpop r hr)⟩
  · rw [if_neg hc]
    exact hd

theorem areaFold_spec (keys : List String) (refs : List SEC.SecRef)
    (intersectsQ : SEC.SecRef → Bool) (areaOverlap : SEC.SecRef → ℚ) (queryArea : ℚ) :
    (refs.foldl
        (fun d r =>
          if intersectsQ r then
            if areaOverlap r / queryArea > 0 then
              SEC.addToKey d r.x_folder (areaOverlap r / queryArea)
            else d
          else d)
        (SEC.default_sec_dict keys)).map Prod.fst = keys ∧
    ∀ x ∈ SEC.secValues (refs.foldl
        (fun d r =>
          if intersectsQ r then
            if areaOverlap r / queryArea > 0 then
              SEC.addToKey d r.x_folder (areaOverlap r / queryArea)
            else d
          else d)
        (SEC.default_sec_dict keys)), 0 ≤ x := by
  apply foldl_preserve _
    (fun d => d.map Prod.fst = keys ∧ ∀ x ∈ SEC.secValues d, 0 ≤ x) refs
    (SEC.default_sec_dict keys)
    ⟨default_sec_dict_keys keys, default_sec_dict_nonneg keys⟩
  intro d r hr hd
  by_cases hi : intersectsQ r
  · rw [if_pos hi]
    by_cases hc : areaOverlap r / queryArea > 0
    · rw [if_pos hc]
      exact ⟨by rw [addToKey_keys]; exact hd.1,
        addToKey_values_nonneg _ _ _ hd.2 (le_of_lt hc)⟩
    · rw [if_neg hc]
      exact hd
  · rw [if_neg hi]
    exact hd

theorem sec_pipeline_spec (keys : List String) (d : SEC.SecDict) (nearestFolder : String)
    (hnf : nearestFolder ∈ keys) (hkeys : d.map Prod.fst = keys)
    (hnn : ∀ x ∈ SEC.secValues d, 0 ≤ x) :
    (SEC.secValues (SEC.normalize_sec_dict
        (if d = SEC.default_sec_dict keys then
          SEC.addToKey (SEC.default_sec_dict keys) nearestFolder 1
        else d))).sum = 1 ∧
    (SEC.normalize_sec_dict
        (if d = SEC.default_sec_dict keys then
          SEC.addToKey (SEC.default_sec_dict keys) nearestFolder 1
        else d)).map Prod.fst = keys := by
  by_cases hd : d = SEC.default_sec_dict keys
  · rw [if_pos hd]
    constructor
    · apply normalize_sum
      rw [fallback_sum keys nearestFolder hnf]
      norm_num
    · rw [normalize_keys, addToKey_keys]
      exact default_sec_dict_keys keys
  · rw [if_neg hd]
    constructor
    · exact normalize_sum d (ne_of_gt (sum_pos_of_ne_default d keys hkeys hnn hd))
    · rw [normalize_keys]
      exact hkeys

/-- C4: for a non-degenerate query, both SEC classification operations
(population-weighted and area-weighted) return a weight mapping keyed exactly by
the label set fixed at construction whose values sum to exactly 1 (floating point
is modelled by exact rationals), and when no reference polygon passes the overlap
test the nearest-polygon fallback assigns full weight 1.0 to the nearest label and
the final normalization is a no-op. Hypotheses: the nearest reference polygon's
label and every intersecting reference polygon's label belong to the key set (true
by construction, since the keys are collected from the same polygon list), and the
raster populations of overlaps are nonnegative. -/
theorem C4_sec_weights_sum_to_one (keys : List String) (refs : List SEC.SecRef)
    (overlapArea overlapPop : SEC.SecRef → ℚ) (intersectsQ : SEC.SecRef → Bool)
    (areaOverlap : SEC.SecRef → ℚ) (queryArea : ℚ) (nearestFolder : String)
    (hnf : nearestFolder ∈ keys) (hfolders : ∀ r ∈ refs, r.x_folder ∈ keys)
    (hpop : ∀ r ∈ refs, 0 ≤ overlapPop r) :
    (SEC.secValues (SEC.get_polygon_sec_by_population keys refs overlapArea overlapPop
        nearestFolder)).sum = 1 ∧
    (SEC.get_polygon_sec_by_population keys refs overlapArea overlapPop nearestFolder).map
        Prod.fst = keys ∧
    (SEC.secValues (SEC.get_polygon_sec_by_area keys refs intersectsQ areaOverlap queryArea
        nearestFolder)).sum = 1 ∧
    (SEC.get_polygon_sec_by_area keys refs intersectsQ areaOverlap queryArea
        nearestFolder).map Prod.fst = keys ∧
    ((∀ r ∈ refs, ¬ (overlapArea r > 0)) →
      SEC.get_polygon_sec_by_population keys refs overlapArea overlapPop nearestFolder =
        SEC.get_polygon_sec_by_population_nearby keys nearestFolder) := by
  obtain ⟨hkp, hnnp⟩ := popFold_spec keys refs overlapArea overlapPop hpop
  obtain ⟨hsp, hksp⟩ := sec_pipeline_spec keys _ nearestFolder hnf hkp hnnp
  obtain ⟨hka, hnna⟩ := areaFold_spec keys refs intersectsQ areaOverlap queryArea
  obtain ⟨hsa, hksa⟩ := sec_pipeline_spec keys _ nearestFolder hnf hka hnna
  refine ⟨hsp, hksp, hsa, hksa, ?_⟩
  intro hnone
  have hfix : refs.foldl
      (fun d r => if overlapArea r > 0 then SEC.addToKey d r.x_folder (overlapPop r) else d)
      (SEC.default_sec_dict keys) = SEC.default_sec_dict keys := by
    apply foldl_id_of_fix
    intro d' r hr
    rw [if_neg (hnone r hr)]
  show SEC.normalize_sec_dict
      (if refs.foldl
          (fun d r => if overlapArea r > 0 then SEC.addToKey d r.x_folder (overlapPop r) else d)
          (SEC.default_sec_dict keys) = SEC.default_sec_dict keys then
        SEC.get_polygon_sec_by_population_nearby keys nearestFolder
      else _) = SEC.get_polygon_sec_by_population_nearby keys nearestFolder
  rw [if_pos hfix]
  exact normalize_noop _ (fallback_sum keys nearestFolder hnf)

theorem C4_witness :
    (SEC.secValues (SEC.get_polygon_sec_by_population ["A", "B"] [⟨"A"⟩]
        (fun _ => 2) (fun _ => 3) "B")).sum = 1 ∧
    (SEC.get_polygon_sec_by_population ["A", "B"] [⟨"A"⟩]
        (fun _ => 2) (fun _ => 3) "B").map Prod.fst = ["A", "B"] ∧
    (SEC.secValues (SEC.get_polygon_sec_by_area ["A", "B"] [⟨"A"⟩]
        (fun _ => true) (fun _ => 2) 4 "B")).sum = 1 ∧
    (SEC.get_polygon_sec_by_area ["A", "B"] [⟨"A"⟩]
        (fun _ => true) (fun _ => 2) 4 "B").map Prod.fst = ["A", "B"] ∧
    ((∀ r ∈ [(⟨"A"⟩ : SEC.SecRef)], ¬ ((fun (_ : SEC.SecRef) => (2 : ℚ)) r > 0)) →
      SEC.get_polygon_sec_by_population ["A", "B"] [⟨"A"⟩]
          (fun _ => 2) (fun _ => 3) "B" =
        SEC.get_polygon_sec_by_population_nearby ["A", "B"] "B") :=
  C4_sec_weights_sum_to_one ["A", "B"] [⟨"A"⟩] (fun _ => 2) (fun _ => 3)
    (fun _ => true) (fun _ => 2) 4 "B" (by decide) (by decide) (by decide)

/-! Raster population grid: cache characterization and query lemmas. -/

theorem mem_cache_pixels {t : GeoTiff} {px : PixelPolygon} :
    px ∈ PopulationTif.cache_pixels t ↔
      ∃ r c, r < t.height ∧ c < t.width ∧ max (PopulationTif.rasterAt t r c) 0 ≠ 0 ∧
        px = ⟨PopulationTif.pixelRect t r c,
              t.scale * max (PopulationTif.rasterAt t r c) 0, (r, c)⟩ := by
  rw [PopulationTif.cache_pixels]
  constructor
  · intro h
    obtain ⟨r, hr, h⟩ := List.mem_flatMap.mp h
    obtain ⟨c, hc, hsome⟩ := List.mem_filterMap.mp h
    rw [List.mem_range] at hr hc
    by_cases hv : max (PopulationTif.rasterAt t r c) 0 = 0
    · simp only [if_pos hv] at hsome
      exact absurd hsome (by simp)
    · simp only [if_neg hv] at hsome
      exact ⟨r, c, hr, hc, hv, (Option.some.inj hsome).symm⟩
  · rintro ⟨r, c, hr, hc, hv, rfl⟩
    refine List.mem_flatMap.mpr ⟨r, List.mem_range.mpr hr, ?_⟩
    exact List.mem_filterMap.mpr ⟨c, List.mem_range.mpr hc, by simp only [if_neg hv]⟩

theorem pixelRect_eq {t : GeoTiff} (hx : 0 < t.xres) (hy : t.yres < 0) (r c : ℕ) :
    PopulationTif.pixelRect t r c =
      ⟨t.ulx + c * t.xres, t.ulx + (c + 1) * t.xres,
       t.uly + (r + 1) * t.yres, t.uly + r * t.yres⟩ := by
  have hex : ((c : ℚ) + 1) * t.xres = (c : ℚ) * t.xres + t.xres := by ring
  have hey : ((r : ℚ) + 1) * t.yres = (r : ℚ) * t.yres + t.yres := by ring
  have hxm : t.ulx + (c : ℚ) * t.xres ≤ t.ulx + ((c : ℚ) + 1) * t.xres := by
    rw [hex]; linarith
  have hym : t.uly + ((r : ℚ) + 1) * t.yres ≤ t.uly + (r : ℚ) * t.yres := by
    rw [hey]; linarith
  simp only [PopulationTif.pixelRect, PopulationTif.get_pixel_coords]
  rw [min_eq_left hxm, max_eq_right hxm, min_eq_right hym, max_eq_left hym]

theorem cache_px_bounds {t : GeoTiff} (hx : 0 < t.xres) (hy : t.yres < 0)
    {px : PixelPolygon} (hpx : px ∈ PopulationTif.cache_pixels t) :
    t.ulx ≤ px.rect.xmin ∧ px.rect.xmax ≤ PopulationTif.lrx t ∧
    PopulationTif.lry t ≤ px.rect.ymin ∧ px.rect.ymax ≤ t.uly ∧
    px.rect.xmax - px.rect.xmin = t.xres ∧ px.rect.ymax - px.rect.ymin = -t.yres := by
  obtain ⟨r, c, hr, hc, hv, rfl⟩ := mem_cache_pixels.mp hpx
  simp only [pixelRect_eq hx hy, PopulationTif.lrx, PopulationTif.lry]
  have hc1 : ((c : ℚ) + 1) ≤ (t.width : ℚ) := by exact_mod_cast Nat.succ_le_of_lt hc
  have hr1 : ((r : ℚ) + 1) ≤ (t.height : ℚ) := by exact_mod_cast Nat.succ_le_of_lt hr
  have hcn : (0 : ℚ) ≤ (c : ℚ) := Nat.cast_nonneg c
  have hrn : (0 : ℚ) ≤ (r : ℚ) := Nat.cast_nonneg r
  refine ⟨?_, ?_, ?_, ?_, by ring, by ring⟩
  · nlinarith
  · nlinarith [mul_le_mul_of_nonneg_right hc1 (le_of_lt hx)]
  · nlinarith [mul_le_mul_of_nonpos_right hr1 (le_of_lt hy)]
  · nlinarith

theorem cache_pop_spec {t : GeoTiff} {px : PixelPolygon}
    (hpx : px ∈ PopulationTif.cache_pixels t) :
    (0 ≤ t.scale → 0 ≤ px.x_population) ∧ (0 < t.scale → 0 < px.x_population) := by
  obtain ⟨r, c, hr, hc, hv, rfl⟩ := mem_cache_pixels.mp hpx
  have hnn : 0 ≤ max (PopulationTif.rasterAt t r c) 0 := le_max_right _ _
  have hpos : 0 < max (PopulationTif.rasterAt t r c) 0 := lt_of_le_of_ne hnn (Ne.symm hv)
  exact ⟨fun hs => mul_nonneg hs hnn, fun hs => mul_pos hs hpos⟩

theorem cache_area_pos {t : GeoTiff} (hx : 0 < t.xres) (hy : t.yres < 0)
    {px : PixelPolygon} (hpx : px ∈ PopulationTif.cache_pixels t) :
    0 < px.rect.area := by
  obtain ⟨-, -, -, -, hdx, hdy⟩ := cache_px_bounds hx hy hpx
  rw [Rect.area, hdx, hdy, max_eq_right (le_of_lt hx),
    max_eq_right (by linarith : (0 : ℚ) ≤ -t.yres)]
  exact mul_pos hx (by linarith)

theorem inter_area_nonneg (r q : Rect) : 0 ≤ (r.inter q).area :=
  mul_nonneg (le_max_left _ _) (le_max_left _ _)

theorem inter_area_le (r q : Rect) : (r.inter q).area ≤ r.area := by
  rw [Rect.area, Rect.area, Rect.inter]
  have h1 : min r.xmax q.xmax - max r.xmin q.xmin ≤ r.xmax - r.xmin := by
    have := min_le_left r.xmax q.xmax
    have := le_max_left r.xmin q.xmin
    linarith
  have h2 : min r.ymax q.ymax - max r.ymin q.ymin ≤ r.ymax - r.ymin := by
    have := min_le_left r.ymax q.ymax
    have := le_max_left r.ymin q.ymin
    linarith
  exact mul_le_mul (max_le_max (le_refl 0) h1) (max_le_max (le_refl 0) h2)
    (le_max_left _ _) (le_max_left _ _)

theorem get_population_none_eq (pixels : List PixelPolygon) :
    PopulationTif.get_population pixels none = (pixels.map (fun px => px.x_population)).sum := by
  rw [PopulationTif.get_population]
  simp [mul_one]

theorem get_population_some_eq (pixels : List PixelPolygon) (q : Rect) :
    PopulationTif.get_population pixels (some q) =
      ((PopulationTif.get_intersecting_pixels pixels q).map
        (fun px => px.x_population * ((px.rect.inter q).area / px.rect.area))).sum := rfl

theorem get_intersecting_eq_filter (pixels : List PixelPolygon) (q : Rect) :
    PopulationTif.get_intersecting_pixels pixels q =
      pixels.filter (fun px => px.rect.intersectsB q) := by
  rw [PopulationTif.get_intersecting_pixels, PopulationTif.strTreeQuery, List.filter_filter]
  simp

/-- C7: the polygon population query is the sum, over intersecting pixel cells, of
cellPopulation * (intersectionArea / cellArea); without a polygon it returns the
sum of all cached cell populations, and querying with the whole-raster extent
rectangle returns exactly that same total (exact rational arithmetic stands in for
floating point, so the tolerance is zero). -/
theorem C7_population_query (t : GeoTiff) (hx : 0 < t.xres) (hy : t.yres < 0) :
    PopulationTif.get_population (PopulationTif.cache_pixels t) none =
      ((PopulationTif.cache_pixels t).map (fun px => px.x_population)).sum ∧
    (∀ q : Rect, PopulationTif.get_population (PopulationTif.cache_pixels t) (some q) =
      (((PopulationTif.cache_pixels t).filter (fun px => px.rect.intersectsB q)).map
        (fun px => px.x_population * ((px.rect.inter q).area / px.rect.area))).sum) ∧
    PopulationTif.get_population (PopulationTif.cache_pixels t)
        (some (PopulationTif.extentRect t)) =
      PopulationTif.get_population (PopulationTif.cache_pixels t) none := by
  refine ⟨get_population_none_eq _, ?_, ?_⟩
  · intro q
    rw [get_population_some_eq, get_intersecting_eq_filter]
  · have hsub : ∀ px ∈ PopulationTif.cache_pixels t,
        px.rect.xmin ≥ t.ulx ∧ px.rect.xmax ≤ PopulationTif.lrx t ∧
        px.rect.ymin ≥ PopulationTif.lry t ∧ px.rect.ymax ≤ t.uly ∧
        px.rect.xmin ≤ px.rect.xmax ∧ px.rect.ymin ≤ px.rect.ymax := by
      intro px hpx
      obtain ⟨h1, h2, h3, h4, hdx, hdy⟩ := cache_px_bounds hx hy hpx
      exact ⟨h1, h2, h3, h4, by linarith, by linarith⟩
    have e1 : (PopulationTif.extentRect t).xmin = t.ulx := rfl
    have e2 : (PopulationTif.extentRect t).xmax = PopulationTif.lrx t := rfl
    have e3 : (PopulationTif.extentRect t).ymin = PopulationTif.lry t := rfl
    have e4 : (PopulationTif.extentRect t).ymax = t.uly := rfl
    have hall : ∀ px ∈ PopulationTif.cache_pixels t,
        px.rect.intersectsB (PopulationTif.extentRect t) = true := by
      intro px hpx
      obtain ⟨h1, h2, h3, h4, h5, h6⟩ := hsub px hpx
      rw [Rect.intersectsB, e1, e2, e3, e4]
      simp only [Bool.and_eq_true, decide_eq_true_eq]
      exact ⟨max_le (le_min h5 (by linarith)) (le_min (by linarith) (by linarith)),
        max_le (le_min h6 (by linarith)) (le_min (by linarith) (by linarith))⟩
    rw [get_population_some_eq, get_intersecting_eq_filter,
      List.filter_eq_self.mpr hall, get_population_none_eq]
    apply congrArg
    apply List.map_congr_left
    intro px hpx
    obtain ⟨h1, h2, h3, h4, h5, h6⟩ := hsub px hpx
    have hinter : px.rect.inter (PopulationTif.extentRect t) = px.rect := by
      rw [Rect.inter, e1, e2, e3, e4, max_eq_left h1, min_eq_left h2, max_eq_left h3,
        min_eq_left h4]
    rw [hinter, div_self (ne_of_gt (cache_area_pos hx hy hpx)), mul_one]

theorem C7_witness :
    PopulationTif.get_population (PopulationTif.cache_pixels tif6) none =
      ((PopulationTif.cache_pixels tif6).map (fun px => px.x_population)).sum ∧
    (∀ q : Rect, PopulationTif.get_population (PopulationTif.cache_pixels tif6) (some q) =
      (((PopulationTif.cache_pixels tif6).filter (fun px => px.rect.intersectsB q)).map
        (fun px => px.x_population * ((px.rect.inter q).area / px.rect.area))).sum) ∧
    PopulationTif.get_population (PopulationTif.cache_pixels tif6)
        (some (PopulationTif.extentRect tif6)) =
      PopulationTif.get_population (PopulationTif.cache_pixels tif6) none :=
  C7_population_query tif6 (by decide) (by decide)

/-- C9: a polygon population query is nonnegative and never exceeds the no-argument
whole-grid total: each intersecting cell contributes a fraction in [0, 1] of its
nonnegative population, and only intersecting cells contribute. -/
theorem C9_population_bounds (t : GeoTiff) (q : Rect) (hx : 0 < t.xres) (hy : t.yres < 0)
    (hs : 0 ≤ t.scale) :
    0 ≤ PopulationTif.get_population (PopulationTif.cache_pixels t) (some q) ∧
    PopulationTif.get_population (PopulationTif.cache_pixels t) (some q) ≤
      PopulationTif.get_population (PopulationTif.cache_pixels t) none := by
  have hterm : ∀ px ∈ PopulationTif.cache_pixels t,
      0 ≤ px.x_population * ((px.rect.inter q).area / px.rect.area) ∧
      px.x_population * ((px.rect.inter q).area / px.rect.area) ≤ px.x_population := by
    intro px hpx
    have hpop : 0 ≤ px.x_population := (cache_pop_spec hpx).1 hs
    have harea : 0 < px.rect.area := cache_area_pos hx hy hpx
    have hratio0 : 0 ≤ (px.rect.inter q).area / px.rect.area :=
      div_nonneg (inter_area_nonneg _ _) (le_of_lt harea)
    have hratio1 : (px.rect.inter q).area / px.rect.area ≤ 1 :=
      (div_le_one harea).mpr (inter_area_le _ _)
    constructor
    · exact mul_nonneg hpop hratio0
    · calc px.x_population * ((px.rect.inter q).area / px.rect.area)
            ≤ px.x_population * 1 := mul_le_mul_of_nonneg_left hratio1 hpop
        _ = px.x_population := mul_one _
  rw [get_population_some_eq, get_intersecting_eq_filter, get_population_none_eq]
  constructor
  · apply List.sum_nonneg
    intro x hxm
    obtain ⟨px, hpxm, rfl⟩ := List.mem_map.mp hxm
    exact (hterm px (List.mem_filter.mp hpxm).1).1
  · calc (((PopulationTif.cache_pixels t).filter (fun px => px.rect.intersectsB q)).map
          (fun px => px.x_population * ((px.rect.inter q).area / px.rect.area))).sum
        ≤ (((PopulationTif.cache_pixels t).filter (fun px => px.rect.intersectsB q)).map
          (fun px => px.x_population)).sum := by
          apply List.sum_le_sum
          intro px hpxm
          exact (hterm px (List.mem_filter.mp hpxm).1).2
      _ ≤ ((PopulationTif.cache_pixels t).map (fun px => px.x_population)).sum := by
          apply sum_map_filter_le
          intro px hpx
          exact (cache_pop_spec hpx).1 hs

theorem C9_witness :
    0 ≤ PopulationTif.get_population (PopulationTif.cache_pixels tif6)
        (some ⟨0, 25, 0, 25⟩) ∧
    PopulationTif.get_population (PopulationTif.cache_pixels tif6) (some ⟨0, 25, 0, 25⟩) ≤
      PopulationTif.get_population (PopulationTif.cache_pixels tif6) none :=
  C9_population_bounds tif6 ⟨0, 25, 0, 25⟩ (by decide) (by decide) (by decide)

/-! Point-population queries: nearest-pixel lemmas and the C5/C6 theorems. -/

theorem containsPt_imp_bbox {r : Rect} {p : Pt} (h : r.containsPt p = true) :
    r.bboxContainsPt p = true := by
  rw [Rect.containsPt] at h
  rw [Rect.bboxContainsPt]
  simp only [Bool.and_eq_true, decide_eq_true_eq] at h ⊢
  obtain ⟨⟨⟨h1, h2⟩, h3⟩, h4⟩ := h
  exact ⟨⟨⟨le_of_lt h1, le_of_lt h2⟩, le_of_lt h3⟩, le_of_lt h4⟩

theorem cache_containsPt_unique {t : GeoTiff} (hx : 0 < t.xres) (hy : t.yres < 0)
    {px qx : PixelPolygon} (hpx : px ∈ PopulationTif.cache_pixels t)
    (hqx : qx ∈ PopulationTif.cache_pixels t) {p : Pt}
    (h1 : px.rect.containsPt p = true) (h2 : qx.rect.containsPt p = true) : px = qx := by
  obtain ⟨r, c, hr, hc, hv, rfl⟩ := mem_cache_pixels.mp hpx
  obtain ⟨r', c', hr', hc', hv', rfl⟩ := mem_cache_pixels.mp hqx
  simp only [Rect.containsPt, pixelRect_eq hx hy, Bool.and_eq_true, decide_eq_true_eq] at h1 h2
  obtain ⟨⟨⟨ha1, ha2⟩, ha3⟩, ha4⟩ := h1
  obtain ⟨⟨⟨hb1, hb2⟩, hb3⟩, hb4⟩ := h2
  have hcc : c = c' := by
    by_contra hne
    rcases Nat.lt_or_ge c c' with hlt | hge
    · have hcast : ((c : ℚ) + 1) ≤ (c' : ℚ) := by exact_mod_cast hlt
      nlinarith [mul_le_mul_of_nonneg_right hcast (le_of_lt hx)]
    · have hlt' : c' < c := lt_of_le_of_ne hge (fun h => hne h.symm)
      have hcast : ((c' : ℚ) + 1) ≤ (c : ℚ) := by exact_mod_cast hlt'
      nlinarith [mul_le_mul_of_nonneg_right hcast (le_of_lt hx)]
  have hrr : r = r' := by
    by_contra hne
    rcases Nat.lt_or_ge r r' with hlt | hge
    · have hcast : ((r : ℚ) + 1) ≤ (r' : ℚ) := by exact_mod_cast hlt
      nlinarith [mul_le_mul_of_nonpos_right hcast (le_of_lt hy)]
    · have hlt' : r' < r := lt_of_le_of_ne hge (fun h => hne h.symm)
      have hcast : ((r' : ℚ) + 1) ≤ (r : ℚ) := by exact_mod_cast hlt'
      nlinarith [mul_le_mul_of_nonpos_right hcast (le_of_lt hy)]
  subst hcc
  subst hrr
  rfl

theorem nearest_fold_spec (p : Pt)
    (g : Option PixelPolygon → PixelPolygon → Option PixelPolygon)
    (hg_none : ∀ px, g none px = some px)
    (hg_some : ∀ b px, g (some b) px =
      if px.rect.distSq p < b.rect.distSq p then some px else some b) :
    ∀ (l : List PixelPolygon) (acc : Option PixelPolygon),
      (∀ r, l.foldl g acc = some r →
        (acc = some r ∨ r ∈ l) ∧
        (∀ b, acc = some b → r.rect.distSq p ≤ b.rect.distSq p) ∧
        (∀ q ∈ l, r.rect.distSq p ≤ q.rect.distSq p)) ∧
      ((acc.isSome = true ∨ l ≠ []) → (l.foldl g acc).isSome = true) := by
  intro l
  induction l with
  | nil =>
      intro acc
      constructor
      · intro r hr
        rw [List.foldl_nil] at hr
        refine ⟨Or.inl hr, ?_, by simp⟩
        intro b hb
        rw [hr] at hb
        rw [Option.some.inj hb]
      · intro h
        rw [List.foldl_nil]
        rcases h with h | h
        · exact h
        · exact absurd rfl h
  | cons a l ih =>
      intro acc
      have fstep : ∃ c, g acc a = some c ∧
          c.rect.distSq p ≤ a.rect.distSq p ∧
          (∀ b, acc = some b → c.rect.distSq p ≤ b.rect.distSq p) ∧
          (c = a ∨ acc = some c) := by
        cases acc with
        | none =>
            exact ⟨a, hg_none a, le_refl _, fun b hb => Option.noConfusion hb, Or.inl rfl⟩
        | some b =>
            rw [hg_some b a]
            by_cases hd : a.rect.distSq p < b.rect.distSq p
            · refine ⟨a, by rw [if_pos hd], le_refl _, ?_, Or.inl rfl⟩
              intro b' hb'
              have hbb : b = b' := Option.some.inj hb'
              subst hbb
              exact le_of_lt hd
            · refine ⟨b, by rw [if_neg hd], le_of_not_lt hd, ?_, Or.inr rfl⟩
              intro b' hb'
              have hbb : b = b' := Option.some.inj hb'
              subst hbb
              exact le_refl _
      obtain ⟨c, hcstep, hca, hcacc, hcmem⟩ := fstep
      constructor
      · intro r hr
        rw [List.foldl_cons, hcstep] at hr
        obtain ⟨hmem, haccb, hmin⟩ := (ih (some c)).1 r hr
        have hrc : r.rect.distSq p ≤ c.rect.distSq p := haccb c rfl
        refine ⟨?_, ?_, ?_⟩
        · rcases hmem with hmem | hmem
          · have hcr : c = r := Option.some.inj hmem
            subst hcr
            rcases hcmem with hca' | hacc'
            · exact Or.inr (hca' ▸ List.mem_cons_self _ _)
            · exact Or.inl hacc'
          · exact Or.inr (List.mem_cons_of_mem a hmem)
        · intro b hb
          exact le_trans hrc (hcacc b hb)
        · intro q hq
          rcases List.mem_cons.mp hq with hq | hq
          · subst hq
            exact le_trans hrc hca
          · exact hmin q hq
      · intro _
        rw [List.foldl_cons, hcstep]
        exact (ih (some c)).2 (Or.inl rfl)

theorem nearest_aux (p : Pt) (pixels : List PixelPolygon) :
    (∀ r, PopulationTif.strTreeNearest pixels p = some r →
      r ∈ pixels ∧ ∀ q ∈ pixels, r.rect.distSq p ≤ q.rect.distSq p) ∧
    (pixels ≠ [] → (PopulationTif.strTreeNearest pixels p).isSome = true) := by
  have h := nearest_fold_spec p
    (fun acc px =>
      match acc with
      | none => some px
      | some b => if px.rect.distSq p < b.rect.distSq p then some px else some b)
    (fun _ => rfl) (fun _ _ => rfl) pixels none
  constructor
  · intro r hr
    rw [PopulationTif.strTreeNearest] at hr
    obtain ⟨hmem, -, hmin⟩ := h.1 r hr
    refine ⟨?_, hmin⟩
    rcases hmem with hmem | hmem
    · exact absurd hmem (by simp)
    · exact hmem
  · intro hne
    rw [PopulationTif.strTreeNearest]
    exact h.2 (Or.inr hne)

theorem strTreeNearest_spec (pixels : List PixelPolygon) (p : Pt) (hne : pixels ≠ []) :
    ∃ px, PopulationTif.strTreeNearest pixels p = some px ∧ px ∈ pixels ∧
      ∀ q ∈ pixels, px.rect.distSq p ≤ q.rect.distSq p := by
  obtain ⟨px, hpx⟩ := Option.isSome_iff_exists.mp ((nearest_aux p pixels).2 hne)
  obtain ⟨hmem, hmin⟩ := (nearest_aux p pixels).1 px hpx
  exact ⟨px, hpx, hmem, hmin⟩

theorem get_point_population_mem (pixels : List PixelPolygon) (p : Pt) (v : ℚ)
    (h : PopulationTif.get_point_population pixels p = some v) :
    ∃ px ∈ pixels, px.x_population = v := by
  rw [PopulationTif.get_point_population] at h
  cases hfind : (pixels.filter (fun px => px.rect.bboxContainsPt p)).find?
      (fun px => px.rect.containsPt p) with
  | some q =>
      rw [hfind] at h
      refine ⟨q, (List.mem_filter.mp (List.mem_of_find?_eq_some hfind)).1, Option.some.inj h⟩
  | none =>
      rw [hfind] at h
      cases hnear : PopulationTif.strTreeNearest pixels p with
      | none => rw [hnear] at h; exact absurd h (by simp)
      | some n =>
          rw [hnear] at h
          have hn := (nearest_aux p pixels).1 n hnear
          exact ⟨n, hn.1, Option.some.inj h⟩

/-- C6 (amended): get_point_population returns the population of the unique cached
pixel cell strictly containing the point; when no cell contains it, it returns the
population of a pixel at minimal geometric (shape) distance, as computed by
STRtree.nearest - not minimal centroid distance as the claim states; and with a
positive scale every cached cell has strictly positive population, so the returned
value is positive whenever the grid is nonempty. -/
theorem C6_point_population_amended (t : GeoTiff) (p : Pt) (hx : 0 < t.xres)
    (hy : t.yres < 0) :
    (∀ px ∈ PopulationTif.cache_pixels t, px.rect.containsPt p = true →
      PopulationTif.get_point_population (PopulationTif.cache_pixels t) p =
        some px.x_population) ∧
    ((∀ px ∈ PopulationTif.cache_pixels t, px.rect.containsPt p = false) →
      PopulationTif.cache_pixels t ≠ [] →
      ∃ px ∈ PopulationTif.cache_pixels t,
        PopulationTif.get_point_population (PopulationTif.cache_pixels t) p =
          some px.x_population ∧
        ∀ q ∈ PopulationTif.cache_pixels t, px.rect.distSq p ≤ q.rect.distSq p) ∧
    (0 < t.scale → ∀ v, PopulationTif.get_point_population (PopulationTif.cache_pixels t) p =
      some v → 0 < v) ∧
    (0 < t.scale → ∀ px ∈ PopulationTif.cache_pixels t, 0 < px.x_population) := by
  refine ⟨?_, ?_, ?_, fun hs px hpx => (cache_pop_spec hpx).2 hs⟩
  · intro px hpx hcont
    rw [PopulationTif.get_point_population]
    cases hfind : ((PopulationTif.cache_pixels t).filter
        (fun px => px.rect.bboxContainsPt p)).find? (fun px => px.rect.containsPt p) with
    | some q =>
        have hqcont := List.find?_some hfind
        have hqmem := (List.mem_filter.mp (List.mem_of_find?_eq_some hfind)).1
        rw [cache_containsPt_unique hx hy hpx hqmem hcont hqcont]
    | none =>
        have hmemf : px ∈ (PopulationTif.cache_pixels t).filter
            (fun px => px.rect.bboxContainsPt p) :=
          List.mem_filter.mpr ⟨hpx, containsPt_imp_bbox hcont⟩
        exact absurd hcont (by simpa using List.find?_eq_none.mp hfind px hmemf)
  · intro hnone hne
    have hfind : ((PopulationTif.cache_pixels t).filter
        (fun px => px.rect.bboxContainsPt p)).find? (fun px => px.rect.containsPt p) = none := by
      apply List.find?_eq_none.mpr
      intro x hxm
      rw [hnone x (List.mem_filter.mp hxm).1]
      simp
    obtain ⟨px, hpx, hmem, hmin⟩ := strTreeNearest_spec (PopulationTif.cache_pixels t) p hne
    refine ⟨px, hmem, ?_, hmin⟩
    rw [PopulationTif.get_point_population, hfind, hpx]
    rfl
  · intro hs v hv
    obtain ⟨px, hpxm, hpop⟩ := get_point_population_mem _ _ _ hv
    rw [← hpop]
    exact (cache_pop_spec hpxm).2 hs

unseal Rat.add Rat.mul Rat.sub Rat.inv in
theorem C6_witness :
    PopulationTif.get_point_population (PopulationTif.cache_pixels tif6) (25, 25) =
      some (⟨⟨20, 30, 20, 30⟩, 7, (0, 2)⟩ : PixelPolygon).x_population :=
  (C6_point_population_amended tif6 (25, 25) (by decide) (by decide)).1
    ⟨⟨20, 30, 20, 30⟩, 7, (0, 2)⟩ (by decide) (by decide)

unseal Rat.add Rat.mul Rat.sub Rat.inv in
/-- C6 counterexample: on the concrete raster `tif6` and the query point `pt6`
(contained in no pixel), the implementation returns 7, the population of the
geometrically nearest pixel, while the unique pixel at minimal centroid distance
is `pxA`, whose population is 5 - so get_point_population does not return the
population of the nearest cell by centroid distance. -/
theorem C6_counterexample :
    PopulationTif.get_point_population (PopulationTif.cache_pixels tif6) pt6 = some 7 ∧
    pxA ∈ PopulationTif.cache_pixels tif6 ∧
    pxA.x_population = 5 ∧
    ((PopulationTif.cache_pixels tif6).all fun q =>
      q = pxA || decide (specCentroidDistSq pxA.rect pt6 < specCentroidDistSq q.rect pt6)) =
        true ∧
    ¬ ((7 : ℚ) = 5) := by
  decide

/-- C5 (amended): on identical cached pixel sets the optimized class computes the
same polygon population query as the full class, and the two point queries agree
whenever some cached pixel strictly contains the point; they disagree on points
contained in no pixel (see the counterexample: the optimized class returns 0.0
instead of the nearest-pixel population). -/
theorem C5_optimized_agreement_amended (l : List PixelPolygon) (p : Pt) (poly : Option Rect)
    (px : PixelPolygon)
    (hfind : (l.filter (fun q => q.rect.bboxContainsPt p)).find?
        (fun q => q.rect.containsPt p) = some px) :
    OptimizedPopulationTif.get_population (OptimizedPopulationTif.processed l) poly =
      PopulationTif.get_population l poly ∧
    OptimizedPopulationTif.get_point_population (OptimizedPopulationTif.processed l) p =
      px.x_population ∧
    PopulationTif.get_point_population l p = some px.x_population := by
  refine ⟨?_, ?_, ?_⟩
  · cases poly with
    | none => rfl
    | some q => rfl
  · show (match (l.filter (fun q => q.rect.bboxContainsPt p)).find?
        (fun q => q.rect.containsPt p) with
      | some px => px.x_population
      | none => 0) = px.x_population
    rw [hfind]
  · show (match (l.filter (fun q => q.rect.bboxContainsPt p)).find?
        (fun q => q.rect.containsPt p) with
      | some px => some px.x_population
      | none => (PopulationTif.strTreeNearest l p).map (fun px => px.x_population)) =
        some px.x_population
    rw [hfind]

unseal Rat.add Rat.mul Rat.sub Rat.inv in
theorem C5_witness :
    OptimizedPopulationTif.get_population
        (OptimizedPopulationTif.processed (PopulationTif.cache_pixels tif6)) none =
      PopulationTif.get_population (PopulationTif.cache_pixels tif6) none ∧
    OptimizedPopulationTif.get_point_population
        (OptimizedPopulationTif.processed (PopulationTif.cache_pixels tif6)) (25, 25) =
      (⟨⟨20, 30, 20, 30⟩, 7, (0, 2)⟩ : PixelPolygon).x_population ∧
    PopulationTif.get_point_population (PopulationTif.cache_pixels tif6) (25, 25) =
      some (⟨⟨20, 30, 20, 30⟩, 7, (0, 2)⟩ : PixelPolygon).x_population :=
  C5_optimized_agreement_amended (PopulationTif.cache_pixels tif6) (25, 25) none
    ⟨⟨20, 30, 20, 30⟩, 7, (0, 2)⟩ (by decide)

unseal Rat.add Rat.mul Rat.sub Rat.inv in
/-- C5 counterexample: on the same cached pixel set (the pixels of `tif6`, all
within the extraction region) and the point `pt6` inside the region but contained
in no populated pixel, the full grid's point query returns the nearest pixel's
population 7 while the optimized variant returns 0.0 - the two are not
behaviorally identical on the overlapping region. -/
theorem C5_counterexample :
    OptimizedPopulationTif.get_point_population
        (OptimizedPopulationTif.processed (PopulationTif.cache_pixels tif6)) pt6 = 0 ∧
    PopulationTif.get_point_population (PopulationTif.cache_pixels tif6) pt6 = some 7 ∧
    some (OptimizedPopulationTif.get_point_population
        (OptimizedPopulationTif.processed (PopulationTif.cache_pixels tif6)) pt6) ≠
      PopulationTif.get_point_population (PopulationTif.cache_pixels tif6) pt6 := by
  decide

/-! Territory assignment pipeline: location flags, gated resolution, and the
strict-interior boundary test. -/

theorem processCustomerRow_not_ok (b : ℚ → ℚ → Bool) (s : Pt → String)
    (m w : Pt → Option ℕ) (row : Customers.CustRow)
    (h : Customers.get_location_flag b row.longitude row.latitude ≠ "OK") :
    Customers.processCustomerRow b s m w row =
      ⟨row.customer_code, (row.longitude, row.latitude),
       Customers.get_location_flag b row.longitude row.latitude, "U", none, none⟩ := by
  simp only [Customers.processCustomerRow]
  rw [if_neg h]

theorem processCustomerRow_ok (b : ℚ → ℚ → Bool) (s : Pt → String)
    (m w : Pt → Option ℕ) (lg lt : ℚ) (code : String)
    (h : Customers.get_location_flag b (some lg) (some lt) = "OK") :
    Customers.processCustomerRow b s m w ⟨some lg, some lt, code⟩ =
      ⟨code, (some lg, some lt), "OK", s (lg, lt), m (lg, lt), w (lg, lt)⟩ := by
  simp only [Customers.processCustomerRow]
  rw [if_pos h, h]

theorem get_location_flag_some (b : ℚ → ℚ → Bool) (lg lt : ℚ) :
    ((lg = 0 ∨ lt = 0) → Customers.get_location_flag b (some lg) (some lt) = "Z") ∧
    (lg ≠ 0 → lt ≠ 0 → b lg lt = false →
      Customers.get_location_flag b (some lg) (some lt) = "OB") ∧
    (lg ≠ 0 → lt ≠ 0 → b lg lt = true →
      Customers.get_location_flag b (some lg) (some lt) = "OK") := by
  refine ⟨?_, ?_, ?_⟩
  · intro hz
    rw [Customers.get_location_flag]
    rw [if_pos]
    rcases hz with hz | hz <;> simp [hz]
  · intro h1 h2 hb
    rw [Customers.get_location_flag]
    rw [if_neg (by simp [h1, h2]), if_pos (by simp [hb])]
  · intro h1 h2 hb
    rw [Customers.get_location_flag]
    rw [if_neg (by simp [h1, h2]), if_neg (by simp [hb])]

theorem processCustomerRow_flag (b : ℚ → ℚ → Bool) (s : Pt → String)
    (m w : Pt → Option ℕ) (row : Customers.CustRow) :
    (Customers.processCustomerRow b s m w row).x_loc_flag =
      Customers.get_location_flag b row.longitude row.latitude := by
  by_cases h : Customers.get_location_flag b row.longitude row.latitude = "OK"
  · obtain ⟨lngo, lato, code⟩ := row
    rcases lngo with _ | lg
    · exact absurd h (by simp [Customers.get_location_flag])
    rcases lato with _ | lt
    · exact absurd h (by simp [Customers.get_location_flag])
    rw [processCustomerRow_ok b s m w lg lt code h, h]
  · rw [processCustomerRow_not_ok b s m w row h]

/-- C8: each customer row's location flag is Missing when either coordinate is
null, else Zero when either coordinate is exactly 0, else OutOfBoundary when the
boundary collection does not contain the point, else Ok; and only rows flagged Ok
are resolved against the SEC propagator and the sub-territory collections - every
other row keeps the constructor defaults (x_sec "U", no mta id, no whitespace id).
The boundary test and the three resolvers are collaborator parameters. -/
theorem C8_location_flag_gating (b : ℚ → ℚ → Bool) (s : Pt → String)
    (m w : Pt → Option ℕ) (rows : List Customers.CustRow) (row : Customers.CustRow)
    (hrow : row ∈ rows) :
    Customers.processCustomerRow b s m w row ∈
      Customers.cache_populate_customers b s m w rows ∧
    (Customers.processCustomerRow b s m w row).x_loc_flag =
      Customers.get_location_flag b row.longitude row.latitude ∧
    ((row.longitude = none ∨ row.latitude = none) →
      (Customers.processCustomerRow b s m w row).x_loc_flag = "M") ∧
    (∀ lg lt, row.longitude = some lg → row.latitude = some lt → (lg = 0 ∨ lt = 0) →
      (Customers.processCustomerRow b s m w row).x_loc_flag = "Z") ∧
    (∀ lg lt, row.longitude = some lg → row.latitude = some lt → lg ≠ 0 → lt ≠ 0 →
      b lg lt = false → (Customers.processCustomerRow b s m w row).x_loc_flag = "OB") ∧
    (∀ lg lt, row.longitude = some lg → row.latitude = some lt → lg ≠ 0 → lt ≠ 0 →
      b lg lt = true → (Customers.processCustomerRow b s m w row).x_loc_flag = "OK") ∧
    ((Customers.processCustomerRow b s m w row).x_loc_flag ≠ "OK" →
      (Customers.processCustomerRow b s m w row).x_sec = "U" ∧
      (Customers.processCustomerRow b s m w row).x_mta_id = none ∧
      (Customers.processCustomerRow b s m w row).x_whitespace_id = none) ∧
    (∀ lg lt, row.longitude = some lg → row.latitude = some lt →
      (Customers.processCustomerRow b s m w row).x_loc_flag = "OK" →
      (Customers.processCustomerRow b s m w row).x_sec = s (lg, lt) ∧
      (Customers.processCustomerRow b s m w row).x_mta_id = m (lg, lt) ∧
      (Customers.processCustomerRow b s m w row).x_whitespace_id = w (lg, lt)) := by
  have hflag := processCustomerRow_flag b s m w row
  refine ⟨List.mem_map_of_mem _ hrow, hflag, ?_, ?_, ?_, ?_, ?_, ?_⟩
  · intro hn
    rw [hflag]
    obtain ⟨lngo, lato, code⟩ := row
    rcases lngo with _ | lg
    · rcases lato with _ | lt <;> rfl
    · rcases lato with _ | lt
      · rfl
      · simp at hn
  · intro lg lt hl ht hz
    rw [hflag, show row.longitude = some lg from hl, show row.latitude = some lt from ht]
    exact (get_location_flag_some b lg lt).1 hz
  · intro lg lt hl ht h1 h2 hb
    rw [hflag, show row.longitude = some lg from hl, show row.latitude = some lt from ht]
    exact (get_location_flag_some b lg lt).2.1 h1 h2 hb
  · intro lg lt hl ht h1 h2 hb
    rw [hflag, show row.longitude = some lg from hl, show row.latitude = some lt from ht]
    exact (get_location_flag_some b lg lt).2.2 h1 h2 hb
  · intro hne
    rw [hflag] at hne
    rw [processCustomerRow_not_ok b s m w row hne]
    exact ⟨rfl, rfl, rfl⟩
  · intro lg lt hl ht hok
    rw [hflag, hl, ht] at hok
    have hrw : row = ⟨some lg, some lt, row.customer_code⟩ := by
      obtain ⟨lngo, lato, code⟩ := row
      simp_all
    rw [hrw, processCustomerRow_ok b s m w lg lt row.customer_code hok]
    exact ⟨rfl, rfl, rfl⟩

theorem C8_witness :
    Customers.processCustomerRow (fun _ _ => true) (fun _ => "A") (fun _ => some 3)
        (fun _ => some 4) ⟨some 5, some 7, "c1"⟩ ∈
      Customers.cache_populate_customers (fun _ _ => true) (fun _ => "A") (fun _ => some 3)
        (fun _ => some 4) [⟨some 5, some 7, "c1"⟩] ∧
    (Customers.processCustomerRow (fun _ _ => true) (fun _ => "A") (fun _ => some 3)
        (fun _ => some 4) ⟨some 5, some 7, "c1"⟩).x_loc_flag = "OK" ∧
    (Customers.processCustomerRow (fun _ _ => true) (fun _ => "A") (fun _ => some 3)
        (fun _ => some 4) ⟨some 5, some 7, "c1"⟩).x_sec = "A" := by
  have h := C8_location_flag_gating (fun _ _ => true) (fun _ => "A") (fun _ => some 3)
    (fun _ => some 4) [⟨some 5, some 7, "c1"⟩] ⟨some 5, some 7, "c1"⟩ (by decide)
  have hok := h.2.2.2.2.2.1 5 7 rfl rfl (by decide) (by decide) rfl
  exact ⟨h.1, hok, (h.2.2.2.2.2.2.2 5 7 rfl rfl hok).1⟩

/-- C10: shapely containment is a strict-interior test - a point on a member
polygon's ring is never contained - so a customer point lying on the edge of a
boundary polygon and in no boundary polygon's interior makes is_in_boundary
return false, is flagged OB rather than OK, and receives no SEC or sub-territory
resolution (all resolution fields keep their defaults). -/
theorem C10_boundary_strict_interior (polys : List Boundary.BPoly) (p : Pt)
    (s : Pt → String) (m w : Pt → Option ℕ) (code : String)
    (hEdge : ∃ P ∈ polys, Boundary.onRing P p = true)
    (hNoInt : ∀ P ∈ polys, Boundary.containsPoint P p = false) :
    (∀ (Q : Boundary.BPoly) (q : Pt), Boundary.onRing Q q = true →
      Boundary.containsPoint Q q = false) ∧
    Boundary.is_in_boundary polys p = false ∧
    (p.1 ≠ 0 → p.2 ≠ 0 →
      Customers.get_location_flag (fun lg lt => Boundary.is_in_boundary polys (lg, lt))
        (some p.1) (some p.2) = "OB" ∧
      (Customers.processCustomerRow (fun lg lt => Boundary.is_in_boundary polys (lg, lt))
          s m w ⟨some p.1, some p.2, code⟩).x_loc_flag = "OB" ∧
      (Customers.processCustomerRow (fun lg lt => Boundary.is_in_boundary polys (lg, lt))
          s m w ⟨some p.1, some p.2, code⟩).x_sec = "U" ∧
      (Customers.processCustomerRow (fun lg lt => Boundary.is_in_boundary polys (lg, lt))
          s m w ⟨some p.1, some p.2, code⟩).x_mta_id = none ∧
      (Customers.processCustomerRow (fun lg lt => Boundary.is_in_boundary polys (lg, lt))
          s m w ⟨some p.1, some p.2, code⟩).x_whitespace_id = none) := by
  have hstrict : ∀ (Q : Boundary.BPoly) (q : Pt), Boundary.onRing Q q = true →
      Boundary.containsPoint Q q = false := by
    intro Q q hon
    obtain ⟨e, he, hone⟩ := List.any_eq_true.mp hon
    cases hcp : Boundary.containsPoint Q q with
    | false => rfl
    | true =>
        exfalso
        rw [Boundary.containsPoint] at hcp
        have hpos := List.all_eq_true.mp hcp e he
        rw [Boundary.onEdge] at hone
        simp only [Bool.and_eq_true, decide_eq_true_eq] at hpos hone
        rw [hone.1.1.1.1] at hpos
        exact lt_irrefl 0 hpos
  have hnotin : Boundary.is_in_boundary polys p = false := by
    rw [Boundary.is_in_boundary]
    apply List.any_eq_false.mpr
    intro cp hcp
    rw [hNoInt cp (List.mem_filter.mp hcp).1]
    simp
  refine ⟨hstrict, hnotin, ?_⟩
  intro hp1 hp2
  have hflag : Customers.get_location_flag
      (fun lg lt => Boundary.is_in_boundary polys (lg, lt)) (some p.1) (some p.2) = "OB" := by
    apply (get_location_flag_some _ p.1 p.2).2.1 hp1 hp2
    exact hnotin
  refine ⟨hflag, ?_, ?_, ?_, ?_⟩ <;>
    rw [processCustomerRow_not_ok _ s m w ⟨some p.1, some p.2, code⟩ (by rw [hflag]; decide)]
  rw [hflag]

unseal Rat.add Rat.mul Rat.sub Rat.inv in
theorem C10_witness :
    Customers.get_location_flag
        (fun lg lt => Boundary.is_in_boundary [⟨[(2, 2), (4, 2), (4, 4), (2, 4)]⟩] (lg, lt))
        (some 3) (some 2) = "OB" ∧
    (Customers.processCustomerRow
        (fun lg lt => Boundary.is_in_boundary [⟨[(2, 2), (4, 2), (4, 4), (2, 4)]⟩] (lg, lt))
        (fun _ => "A") (fun _ => some 3) (fun _ => some 4) ⟨some 3, some 2, "c9"⟩).x_sec =
      "U" :=
  have h := C10_boundary_strict_interior [⟨[(2, 2), (4, 2), (4, 4), (2, 4)]⟩] (3, 2)
    (fun _ => "A") (fun _ => some 3) (fun _ => some 4) "c9" (by decide) (by decide)
  ⟨(h.2.2 (by decide) (by decide)).1, (h.2.2 (by decide) (by decide)).2.2.1⟩

end RTM
